import Mathlib

/-!
Shallow embedding of the remote-backed output/checkpoint lifecycle logic of
`run_translation.py`: path resolution (`make_absolute`, src lines 91-113), the
storage-backend local-access test (`get_direct_access`, src lines 76-83),
workspace staging (src lines 440-452), checkpoint resume detection (src lines
454-465 and 769-775), checkpoint pruning (src lines 788-792) and the
finalization block (src lines 855-862).  Strings are modelled by Lean
`String`, with the Python string primitives the source relies on
re-implemented over the underlying character lists.
-/

/-- Python slicing `s[n:]`. -/
def strDrop (s : String) (n : Nat) : String := ⟨s.data.drop n⟩

/-- Python slicing `s[:n]`. -/
def strTake (s : String) (n : Nat) : String := ⟨s.data.take n⟩

/-- Python `s.startswith(p)`. -/
def strStartsWith (s p : String) : Bool := p.data.isPrefixOf s.data

/-- Python `s.endswith(p)`. -/
def strEndsWith (s p : String) : Bool := p.data.isSuffixOf s.data

/-- Index of the last occurrence of `c` in `l`: Python `str.rfind`, with
`none` standing for the `-1` result. -/
def rfindIdx (l : List Char) (c : Char) : Option Nat :=
  match l with
  | [] => none
  | a :: as =>
    match rfindIdx as c with
    | some j => some (j + 1)
    | none => if a = c then some 0 else none

/-- Scheme characters accepted by CPython `urlsplit`. -/
def isSchemeChar (c : Char) : Bool := c.isAlphanum || c = '+' || c = '-' || c = '.'

/-- Models `urllib.parse.urlparse(url).scheme`: the lower-cased text before
the first `:` when that text starts with a letter and consists of scheme
characters only, and `""` otherwise. -/
def urlScheme (s : String) : String :=
  match s.data.findIdx? (fun c => c = ':') with
  | none => ""
  | some i =>
    let pre := s.data.take i
    match pre with
    | [] => ""
    | c :: _ => if c.isAlpha && pre.all isSchemeChar then ⟨pre.map Char.toLower⟩ else ""

/-- Models `is_absolute` (src lines 91-92): `urlparse(path).scheme != "" or
os.path.isabs(path)`, where posix `os.path.isabs` tests a leading `/`. -/
def is_absolute (path : String) : Bool := (urlScheme path != "") || strStartsWith path "/"

/-- Models `get_direct_access` (src lines 76-83).  The clearml StorageHelper
reports `base_url == "file://"` exactly for plain filesystem paths (empty
scheme) and `file://` urls; `conform_url` yields `"file://" ++ path` for a
plain path, and the source strips the seven characters `file://` from the
conformed url. -/
def get_direct_access (url : String) : Option String :=
  if urlScheme url = "file" ∨ urlScheme url = "" then
    some (strDrop (if urlScheme url = "" then "file://" ++ url else url) 7)
  else none

/-- Python `cu[:cu.rfind("/") + 1]` (src lines 102-103): the prefix of `cu`
up to and including its last slash, empty when `rfind` returns `-1`. -/
def takeUptoLastSlash (cu : String) : String :=
  match rfindIdx cu.data '/' with
  | none => ""
  | some i => ⟨cu.data.take (i + 1)⟩

/-- Models `posixpath.dirname` (called as `os.path.dirname`, src line 109). -/
def posixDirname (p : String) : String :=
  match rfindIdx p.data '/' with
  | none => ""
  | some i =>
    let head := p.data.take (i + 1)
    if head.all (fun c => c = '/') then ⟨head⟩
    else ⟨(head.reverse.dropWhile (fun c => c = '/')).reverse⟩

/-- Models `posixpath.join` for the two-argument calls in the source
(src lines 111, 113, 447). -/
def posixJoin (a b : String) : String :=
  if strStartsWith b "/" then b
  else if a = "" ∨ strEndsWith a "/" then a ++ b
  else a ++ "/" ++ b

/-- One-path case of `make_absolute` (src lines 95-113); the sequence case
maps this elementwise, exactly as the Python writes the same per-element
expression inside a list comprehension. -/
def make_absolute_one (config_url : Option String) (path : String) : String :=
  match config_url with
  | none => path
  | some cu =>
    match get_direct_access cu with
    | none =>
      let config_dir_url := takeUptoLastSlash cu
      if is_absolute path then path else config_dir_url ++ path
    | some config_path =>
      let config_dir := posixDirname config_path
      if is_absolute path then path else posixJoin config_dir path

/-- A `make_absolute` target: the Python function accepts either a single
string or a list of strings. -/
inductive Target where
  | str (s : String)
  | list (l : List String)
deriving DecidableEq, Repr

/-- Models `make_absolute` (src lines 95-113) on both target shapes. -/
def make_absolute (config_url : Option String) : Target → Target
  | .str s => .str (make_absolute_one config_url s)
  | .list l => .list (l.map (make_absolute_one config_url))

/-- A target is absolute when every contained location is `is_absolute`. -/
def Target.isAbsolute : Target → Bool
  | .str s => is_absolute s
  | .list l => l.all is_absolute

theorem strApp_data (a b : List Char) : (String.mk a) ++ (String.mk b) = String.mk (a ++ b) := rfl

theorem rfindIdx_eq_none {l : List Char} {c : Char} (h : rfindIdx l c = none) : c ∉ l := by
  induction l with
  | nil => simp
  | cons a as ih =>
    rw [rfindIdx] at h
    cases hr : rfindIdx as c with
    | some j => rw [hr] at h; exact absurd h (by simp)
    | none =>
      rw [hr] at h
      intro hmem
      rcases List.mem_cons.mp hmem with hb | hb
      · rw [if_pos hb.symm] at h; exact absurd h (by simp)
      · exact ih hr hb

theorem rfindIdx_spec {l : List Char} {c : Char} {i : Nat} (h : rfindIdx l c = some i) :
    l[i]? = some c ∧ ∀ j, i < j → l[j]? ≠ some c := by
  induction l generalizing i with
  | nil => simp [rfindIdx] at h
  | cons a as ih =>
    rw [rfindIdx] at h
    cases hr : rfindIdx as c with
    | some j =>
      rw [hr] at h
      cases h
      obtain ⟨h1, h2⟩ := ih hr
      refine ⟨by simpa using h1, ?_⟩
      intro k hk
      cases k with
      | zero => omega
      | succ k => simpa using h2 k (by omega)
    | none =>
      rw [hr] at h
      by_cases hac : a = c
      · simp only [if_pos hac] at h
        cases h
        refine ⟨by simpa using hac, ?_⟩
        intro k hk
        cases k with
        | zero => omega
        | succ k =>
          simp only [List.getElem?_cons_succ]
          intro hget
          exact rfindIdx_eq_none hr (List.mem_iff_getElem?.mpr ⟨k, hget⟩)
      · rw [if_neg hac] at h
        exact absurd h (by simp)

theorem rfindIdx_of_mem {l : List Char} {c : Char} (h : c ∈ l) : ∃ i, rfindIdx l c = some i := by
  induction l with
  | nil => simp at h
  | cons a as ih =>
    rw [rfindIdx]
    cases hr : rfindIdx as c with
    | some j => exact ⟨j + 1, rfl⟩
    | none =>
      rcases List.mem_cons.mp h with hb | hb
      · exact ⟨0, by rw [if_pos hb.symm]⟩
      · obtain ⟨i, hi⟩ := ih hb
        rw [hi] at hr
        exact absurd hr (by simp)

theorem make_absolute_one_of_absolute (c : Option String) (y : String)
    (h : is_absolute y = true) : make_absolute_one c y = y := by
  cases c with
  | none => rfl
  | some cu =>
    simp only [make_absolute_one]
    cases hg : get_direct_access cu <;> simp [h]

/-- C5: path resolution is idempotent: if `make_absolute` produces an
absolute result (every produced location is absolute), resolving that result
against the same config origin again leaves it unchanged. -/
theorem c5_resolution_idempotent (c : Option String) (x : Target)
    (h : (make_absolute c x).isAbsolute = true) :
    make_absolute c (make_absolute c x) = make_absolute c x := by
  cases x with
  | str s =>
    simp only [make_absolute, Target.isAbsolute] at h ⊢
    rw [make_absolute_one_of_absolute c _ h]
  | list l =>
    simp only [make_absolute, Target.isAbsolute, List.all_eq_true] at h ⊢
    have hfix : List.map (make_absolute_one c) (List.map (make_absolute_one c) l)
        = List.map id (List.map (make_absolute_one c) l) :=
      List.map_congr_left (fun y hy => make_absolute_one_of_absolute c y (h y hy))
    rw [hfix, List.map_id]

/-- C5 witness: a concrete remote origin and relative path. -/
theorem c5_resolution_idempotent_witness :
    make_absolute (some "s3://bucket/config.json")
        (make_absolute (some "s3://bucket/config.json") (.str "data/train.json"))
      = make_absolute (some "s3://bucket/config.json") (.str "data/train.json") :=
  c5_resolution_idempotent (some "s3://bucket/config.json") (.str "data/train.json") (by decide)

theorem make_absolute_one_remote_rel (u p : String)
    (hremote : get_direct_access u = none) (hrel : is_absolute p = false) :
    make_absolute_one (some u) p = takeUptoLastSlash u ++ p := by
  simp only [make_absolute_one]
  rw [hremote]
  simp [hrel]

/-- C4: for a relative path `p` and a remote config origin `u` with at least
one slash and no trailing slash, resolution returns the prefix of `u` up to
and including its last `/` (the unique split of `u` into a slash-terminated
prefix and a slash-free remainder) concatenated with `p`; a sequence of
relative targets is resolved elementwise in order by the same rule. -/
theorem c4_remote_relative_resolution (u p : String)
    (hremote : get_direct_access u = none)
    (hslash : '/' ∈ u.data)
    (_hnotrail : strEndsWith u "/" = false)
    (hrel : is_absolute p = false) :
    ∃ q r : List Char, u.data = q ++ r ∧ q.getLast? = some '/' ∧ '/' ∉ r ∧
      make_absolute_one (some u) p = ⟨q ++ p.data⟩ ∧
      ∀ ps : List String, (∀ x ∈ ps, is_absolute x = false) →
        make_absolute (some u) (.list ps) = .list (ps.map (fun x => ⟨q ++ x.data⟩)) := by
  obtain ⟨i, hi⟩ := rfindIdx_of_mem hslash
  obtain ⟨hgi, hafter⟩ := rfindIdx_spec hi
  have htake : u.data.take (i + 1) = u.data.take i ++ ['/'] := by
    rw [List.take_succ, hgi]; rfl
  have hslice : takeUptoLastSlash u = ⟨u.data.take (i + 1)⟩ := by
    rw [takeUptoLastSlash, hi]
  have hone : ∀ x : String, is_absolute x = false →
      make_absolute_one (some u) x = ⟨u.data.take (i + 1) ++ x.data⟩ := by
    intro x hx
    rw [make_absolute_one_remote_rel u x hremote hx, hslice]
    cases x
    exact strApp_data _ _
  refine ⟨u.data.take (i + 1), u.data.drop (i + 1), (List.take_append_drop _ _).symm,
    ?_, ?_, hone p hrel, ?_⟩
  · rw [htake, List.getLast?_concat]
  · intro hmem
    obtain ⟨k, hk⟩ := List.mem_iff_getElem?.mp hmem
    rw [List.getElem?_drop] at hk
    exact hafter (i + 1 + k) (by omega) hk
  · intro ps hps
    simp only [make_absolute]
    refine congrArg Target.list (List.map_congr_left ?_)
    intro x hx
    exact hone x (hps x hx)

/-- C4 witness: the end-to-end example of spec section 8:
`data/train.json` relative to `s3://bucket/config.json`. -/
theorem c4_remote_relative_resolution_witness :
    ∃ q r : List Char, ("s3://bucket/config.json" : String).data = q ++ r ∧
      q.getLast? = some '/' ∧ '/' ∉ r ∧
      make_absolute_one (some "s3://bucket/config.json") "data/train.json" = ⟨q ++ ("data/train.json" : String).data⟩ ∧
      ∀ ps : List String, (∀ x ∈ ps, is_absolute x = false) →
        make_absolute (some "s3://bucket/config.json") (.list ps) = .list (ps.map (fun x => ⟨q ++ x.data⟩)) :=
  c4_remote_relative_resolution "s3://bucket/config.json" "data/train.json"
    (by decide) (by decide) (by decide) (by decide)

/-- A child of a directory listing: its name plus whether it is a directory. -/
structure Entry where
  name : String
  isDir : Bool
deriving DecidableEq, Repr

/-- The transformers checkpoint prefix constant `PREFIX_CHECKPOINT_DIR`. -/
def PREFIX_CHECKPOINT_DIR : String := "checkpoint"

/-- Numeric value of a digit string: Python `int` applied to the regex group. -/
def digitsToNat (l : List Char) : Nat :=
  l.foldl (fun a c => a * 10 + (c.toNat - ('0').toNat)) 0

/-- Models the transformers checkpoint regex (anchored
`checkpoint` + `-` + digits, as compiled in `trainer_utils`) applied to a
child name: `some step` when the whole name is the prefix, a hyphen and a
digit string. -/
def checkpointStep (name : String) : Option Nat :=
  let pre := PREFIX_CHECKPOINT_DIR ++ "-"
  if strStartsWith name pre then
    let rest := strDrop name pre.length
    if rest.data.length > 0 && rest.data.all Char.isDigit then some (digitsToNat rest.data)
    else none
  else none

/-- The checkpoint-name pattern as the specification words it: the fixed
prefix followed by a step number. -/
def specCheckpointName (name : String) : Bool := (checkpointStep name).isSome

/-- The filter used by transformers `get_last_checkpoint`: the name matches
the checkpoint regex and the child is a directory. -/
def isCkptDir (e : Entry) : Bool := (checkpointStep e.name).isSome && e.isDir

/-- Step number of an entry, used for ordering (total on entries passing the
regex, defaulting to `0` elsewhere). -/
def stepD (e : Entry) : Nat := (checkpointStep e.name).getD 0

/-- Python `max(_, key=step)` over a listing: the first element carrying the
greatest key, `none` on an empty list. -/
def maxByStep : List Entry → Option Entry
  | [] => none
  | e :: es => some (es.foldl (fun acc x => if stepD acc < stepD x then x else acc) e)

/-- Models transformers `get_last_checkpoint` (external collaborator invoked
at src line 455): among children that are directories matching the
checkpoint regex, the one with the greatest step number. -/
def get_last_checkpoint (entries : List Entry) : Option Entry :=
  maxByStep (entries.filter isCkptDir)

/-- The resume decision of spec section 4.4. -/
inductive ResumeDecision where
  | freshStart
  | resumeFrom (e : Entry)
  | conflictError
deriving DecidableEq, Repr

/-- Models src lines 454-460.  `entries` lists the children of
`training_args.output_dir`; `cwd` lists the children of the process's
current working directory.  The source tests `os.path.isfile(p)` on the bare
names returned by `os.listdir(training_args.output_dir)`, and Python
resolves a bare relative name against the process cwd, not against the
listed directory. -/
def decideResume (dirExists doTrain overwrite : Bool) (entries cwd : List Entry) :
    ResumeDecision :=
  if dirExists && doTrain && !overwrite then
    match get_last_checkpoint entries with
    | some c => .resumeFrom c
    | none =>
      if entries.any (fun e => cwd.any (fun f => f.name == e.name && !f.isDir)) then
        .conflictError
      else .freshStart
  else .freshStart

/-- Models src lines 769-774: an explicit `resume_from_checkpoint` supplied
by the caller wins over the detected `last_checkpoint`. -/
def chooseResumeTarget (resume_from_checkpoint last_checkpoint : Option String) :
    Option String :=
  match resume_from_checkpoint with
  | some r => some r
  | none => last_checkpoint

/-- Glob test of `Path(output_dir).glob("checkpoint-*")` at src line 790. -/
def matchesCheckpointGlob (name : String) : Bool :=
  strStartsWith name (PREFIX_CHECKPOINT_DIR ++ "-")

/-- Models src lines 788-792 on a flat listing of the output directory:
children produced by `Path(output_dir).glob("checkpoint-*")` and passing
`os.path.isdir` are removed by `shutil.rmtree`; everything else stays. -/
def pruneCheckpoints (ws : List Entry) : List Entry :=
  ws.filter (fun e => !(matchesCheckpointGlob e.name && e.isDir))

theorem foldl_maxByStep_mem (es : List Entry) (acc : Entry) :
    es.foldl (fun a x => if stepD a < stepD x then x else a) acc = acc ∨
      es.foldl (fun a x => if stepD a < stepD x then x else a) acc ∈ es := by
  induction es generalizing acc with
  | nil => exact Or.inl rfl
  | cons x xs ih =>
    simp only [List.foldl_cons]
    rcases ih (if stepD acc < stepD x then x else acc) with h | h
    · rw [h]
      by_cases hc : stepD acc < stepD x
      · rw [if_pos hc]; exact Or.inr (List.mem_cons_self _ _)
      · rw [if_neg hc]; exact Or.inl rfl
    · exact Or.inr (List.mem_cons_of_mem _ h)

theorem foldl_maxByStep_ge (es : List Entry) (acc : Entry) :
    stepD acc ≤ stepD (es.foldl (fun a x => if stepD a < stepD x then x else a) acc) ∧
      ∀ e ∈ es, stepD e ≤ stepD (es.foldl (fun a x => if stepD a < stepD x then x else a) acc) := by
  induction es generalizing acc with
  | nil => exact ⟨Nat.le_refl _, by simp⟩
  | cons x xs ih =>
    simp only [List.foldl_cons]
    obtain ⟨h1, h2⟩ := ih (if stepD acc < stepD x then x else acc)
    constructor
    · refine Nat.le_trans ?_ h1
      by_cases hc : stepD acc < stepD x
      · rw [if_pos hc]; omega
      · rw [if_neg hc]
    · intro e he
      rcases List.mem_cons.mp he with he | he
      · subst he
        refine Nat.le_trans ?_ h1
        by_cases hc : stepD acc < stepD e
        · rw [if_pos hc]
        · rw [if_neg hc]; omega
      · exact h2 e he

theorem maxByStep_spec {l : List Entry} (h : l ≠ []) :
    ∃ c, maxByStep l = some c ∧ c ∈ l ∧ ∀ e ∈ l, stepD e ≤ stepD c := by
  cases l with
  | nil => exact absurd rfl h
  | cons a as =>
    refine ⟨as.foldl (fun acc x => if stepD acc < stepD x then x else acc) a, rfl, ?_, ?_⟩
    · rcases foldl_maxByStep_mem as a with hm | hm
      · rw [hm]; exact List.mem_cons_self _ _
      · exact List.mem_cons_of_mem _ hm
    · intro e he
      obtain ⟨h1, h2⟩ := foldl_maxByStep_ge as a
      rcases List.mem_cons.mp he with he | he
      · subst he; exact h1
      · exact h2 e he

/-- C7: (a) when training is not requested, or overwrite is allowed, or the
workspace directory does not exist, the resume decision is `freshStart` (no
checkpoint is resumed, no conflict error); (b) otherwise, when checkpoint
entries (directories matching the checkpoint regex) exist, the decision is
`resumeFrom` applied to such an entry of maximal step number; (c) an
explicit resume target supplied by the caller always takes precedence over
the detected checkpoint. -/
theorem c7_resume_decision :
    (∀ (de dt ow : Bool) (entries cwd : List Entry), (de = false ∨ dt = false ∨ ow = true) →
      decideResume de dt ow entries cwd = .freshStart)
    ∧ (∀ (entries cwd : List Entry), (∃ e ∈ entries, isCkptDir e = true) →
        ∃ c, get_last_checkpoint entries = some c ∧ c ∈ entries ∧ isCkptDir c = true ∧
          (∀ e ∈ entries, isCkptDir e = true → stepD e ≤ stepD c) ∧
          decideResume true true false entries cwd = .resumeFrom c)
    ∧ (∀ (r : String) (l : Option String), chooseResumeTarget (some r) l = some r) := by
  refine ⟨?_, ?_, fun r l => rfl⟩
  · intro de dt ow entries cwd hcase
    unfold decideResume
    rcases hcase with h | h | h <;> subst h <;> simp
  · intro entries cwd hex
    obtain ⟨e0, he0, hck⟩ := hex
    have hne : entries.filter isCkptDir ≠ [] := by
      intro hnil
      have : e0 ∈ entries.filter isCkptDir := List.mem_filter.mpr ⟨he0, hck⟩
      rw [hnil] at this
      simp at this
    obtain ⟨c, hc1, hc2, hc3⟩ := maxByStep_spec hne
    have hcm := List.mem_filter.mp hc2
    refine ⟨c, hc1, hcm.1, hcm.2, ?_, ?_⟩
    · intro e he hcke
      exact hc3 e (List.mem_filter.mpr ⟨he, hcke⟩)
    · have hglc : get_last_checkpoint entries = some c := hc1
      unfold decideResume
      simp [hglc]

/-- C7 witness: the spec section 8 example (`checkpoint-100` and
`checkpoint-300` present, highest step wins), the not-training case, and the
explicit-target precedence, at concrete inputs. -/
theorem c7_resume_decision_witness :
    decideResume true false false [Entry.mk "checkpoint-100" true] [] = .freshStart
    ∧ (∃ c, get_last_checkpoint [Entry.mk "checkpoint-100" true, Entry.mk "checkpoint-300" true] = some c
        ∧ c ∈ [Entry.mk "checkpoint-100" true, Entry.mk "checkpoint-300" true]
        ∧ isCkptDir c = true
        ∧ (∀ e ∈ [Entry.mk "checkpoint-100" true, Entry.mk "checkpoint-300" true],
            isCkptDir e = true → stepD e ≤ stepD c)
        ∧ decideResume true true false [Entry.mk "checkpoint-100" true, Entry.mk "checkpoint-300" true] []
            = .resumeFrom c)
    ∧ chooseResumeTarget (some "run/checkpoint-42") (some "run/checkpoint-300") = some "run/checkpoint-42" :=
  ⟨c7_resume_decision.1 true false false [Entry.mk "checkpoint-100" true] [] (Or.inr (Or.inl rfl)),
   c7_resume_decision.2.1 [Entry.mk "checkpoint-100" true, Entry.mk "checkpoint-300" true] []
     ⟨Entry.mk "checkpoint-100" true, by decide, by decide⟩,
   c7_resume_decision.2.2 "run/checkpoint-42" (some "run/checkpoint-300")⟩

/-- C2 is violated by the code: with an existing workspace directory,
training requested and overwrite disallowed, a directory whose only child is
the non-checkpoint regular file `notes.txt` yields `freshStart` instead of
the claimed conflict error whenever the process cwd (here empty) has no
entry of that name, because src line 456 tests `os.path.isfile` on the bare
listed name instead of joining it onto the output directory. -/
theorem c2_nonempty_dir_no_conflict :
    decideResume true true false [Entry.mk "notes.txt" false] [] = .freshStart
    ∧ specCheckpointName "notes.txt" = false
    ∧ (Entry.mk "notes.txt" false).isDir = false := by
  refine ⟨?_, by decide, rfl⟩
  decide

/-- C9: pruning deletes only directories: an entry removed by pruning is a
directory, and every regular-file entry — in particular one whose name
matches the checkpoint pattern — survives pruning unchanged. -/
theorem c9_prune_spares_files :
    ∀ (ws : List Entry) (e : Entry), e ∈ ws →
      ((e ∉ pruneCheckpoints ws → e.isDir = true)
        ∧ (e.isDir = false → e ∈ pruneCheckpoints ws)) := by
  intro ws e he
  constructor
  · intro hout
    by_contra hdir
    have hdir' : e.isDir = false := by
      cases hd : e.isDir
      · rfl
      · exact absurd hd hdir
    exact hout (List.mem_filter.mpr ⟨he, by simp [hdir']⟩)
  · intro hfile
    exact List.mem_filter.mpr ⟨he, by simp [hfile]⟩

/-- C9 witness: a regular file named `checkpoint-500` (matching the
checkpoint pattern) survives pruning. -/
theorem c9_prune_spares_files_witness :
    Entry.mk "checkpoint-500" false ∈ pruneCheckpoints [Entry.mk "checkpoint-500" false]
    ∧ specCheckpointName "checkpoint-500" = true :=
  ⟨(c9_prune_spares_files [Entry.mk "checkpoint-500" false] (Entry.mk "checkpoint-500" false)
      (by decide)).2 rfl,
   by decide⟩

/-- C6 as stated is false on the code: pruning is keyed to the glob
`checkpoint-*`, not to the prefix-plus-step-number checkpoint pattern, so
the directory `checkpoint-best` — whose name does not match the pattern —
is nevertheless deleted. -/
theorem c6_prune_pattern_counterexample :
    pruneCheckpoints [Entry.mk "checkpoint-best" true] = []
    ∧ specCheckpointName "checkpoint-best" = false := by
  exact ⟨rfl, by decide⟩

/-- C6 amended: pruning deletes exactly the directories whose name starts
with `checkpoint-` (the glob), leaves every other entry untouched (so a file
named `model.bin` survives while a directory named `checkpoint-500` does
not), and is idempotent. -/
theorem c6_prune_glob_and_idempotent (ws : List Entry) :
    (∀ e ∈ ws, e.isDir = true → matchesCheckpointGlob e.name = true →
      e ∉ pruneCheckpoints ws)
    ∧ (∀ e ∈ ws, ¬(e.isDir = true ∧ matchesCheckpointGlob e.name = true) →
        e ∈ pruneCheckpoints ws)
    ∧ pruneCheckpoints (pruneCheckpoints ws) = pruneCheckpoints ws := by
  refine ⟨?_, ?_, ?_⟩
  · intro e _ hdir hglob hmem
    have := (List.mem_filter.mp hmem).2
    rw [hdir, hglob] at this
    simp at this
  · intro e he hnot
    refine List.mem_filter.mpr ⟨he, ?_⟩
    cases hdir : e.isDir
    · simp
    · cases hglob : matchesCheckpointGlob e.name
      · simp
      · exact absurd ⟨hdir, hglob⟩ hnot
  · rw [pruneCheckpoints, pruneCheckpoints, List.filter_filter]
    refine List.filter_congr ?_
    intro e _
    cases matchesCheckpointGlob e.name && e.isDir <;> rfl

/-- C6 amended witness: `model.bin` (file) survives, `checkpoint-500`
(directory) is deleted, and pruning the pruned listing changes nothing. -/
theorem c6_prune_glob_and_idempotent_witness :
    Entry.mk "checkpoint-500" true
        ∉ pruneCheckpoints [Entry.mk "model.bin" false, Entry.mk "checkpoint-500" true]
    ∧ Entry.mk "model.bin" false
        ∈ pruneCheckpoints [Entry.mk "model.bin" false, Entry.mk "checkpoint-500" true]
    ∧ pruneCheckpoints (pruneCheckpoints [Entry.mk "model.bin" false, Entry.mk "checkpoint-500" true])
        = pruneCheckpoints [Entry.mk "model.bin" false, Entry.mk "checkpoint-500" true] :=
  ⟨(c6_prune_glob_and_idempotent _).1 _ (by decide) rfl (by decide),
   (c6_prune_glob_and_idempotent _).2.1 _ (by decide) (by decide),
   (c6_prune_glob_and_idempotent _).2.2⟩

/-- Observable steps of the staging / body / finalization skeleton of
`main` (src lines 440-452, 769-792, 855-862).  The training, evaluation and
prediction calls into the external collaborator are abstracted as single
events of a successful body. -/
inductive Ev where
  | mkTemp
  | download
  | trainEv
  | pruneLocal
  | evalEv
  | predictEv
  | delRemote (url : String)
  | uploadEv
  | rmTemp
deriving DecidableEq, Repr

/-- Recognizer for remote-deletion events. -/
def isDelEv : Ev → Bool
  | .delRemote _ => true
  | _ => false

/-- Events of the try-body (src lines 453-854) when it succeeds: train (with
the local checkpoint deletion of src lines 788-792 iff requested), then
eval, then predict, each iff requested. -/
def bodyTrace (doTrain deleteCkptAtEnd doEval doPredict : Bool) : List Ev :=
  (if doTrain then [Ev.trainEv] ++ (if deleteCkptAtEnd then [Ev.pruneLocal] else []) else [])
    ++ (if doEval then [Ev.evalEv] else [])
    ++ (if doPredict then [Ev.predictEv] else [])

/-- The deletion condition of src line 859:
`url[len(output_url):].startswith(f"/{PREFIX_CHECKPOINT_DIR}-")`. -/
def checkpointUrlCond (outputUrl url : String) : Bool :=
  strStartsWith (strDrop url outputUrl.length) ("/" ++ PREFIX_CHECKPOINT_DIR ++ "-")

/-- Models the finally-block of src lines 855-862 for a mirrored workspace:
delete every listed remote url passing `checkpointUrlCond`, in order, then
attempt the upload; only when the upload does not raise is the ephemeral
directory removed (`shutil.rmtree` is the next statement, with no inner
try).  The boolean result records whether an error propagates. -/
def finalizeTrace (outputUrl : String) (remoteUrls : List String) (uploadFails : Bool) :
    List Ev × Bool :=
  let dels := (remoteUrls.filter (fun u => checkpointUrlCond outputUrl u)).map Ev.delRemote
  if uploadFails then (dels ++ [Ev.uploadEv], true)
  else (dels ++ [Ev.uploadEv, Ev.rmTemp], false)

/-- Configuration of one job run, with failure injection for the two storage
transfers. -/
structure RunCfg where
  outputUrl : String
  remoteUrls : List String
  downloadFails : Bool
  uploadFails : Bool
  doTrain : Bool
  doEval : Bool
  doPredict : Bool
  deleteCkptAtEnd : Bool
deriving DecidableEq, Repr

/-- Models the `main` skeleton (src lines 440-452, 453-854, 855-862): with
no direct access, the temp dir is created and the download runs before the
`try` is entered (a download error therefore propagates with no cleanup and
no body); the finally-block runs `finalizeTrace` only when a temp dir
exists.  The boolean records whether an error propagates to the caller. -/
def runJob (cfg : RunCfg) : List Ev × Bool :=
  if get_direct_access cfg.outputUrl = none then
    if cfg.downloadFails then ([Ev.mkTemp], true)
    else
      let ft := finalizeTrace cfg.outputUrl cfg.remoteUrls cfg.uploadFails
      ([Ev.mkTemp, Ev.download]
          ++ bodyTrace cfg.doTrain cfg.deleteCkptAtEnd cfg.doEval cfg.doPredict ++ ft.1,
        ft.2)
  else
    (bodyTrace cfg.doTrain cfg.deleteCkptAtEnd cfg.doEval cfg.doPredict, false)

theorem bodyTrace_mem (a b c d : Bool) :
    ∀ e ∈ bodyTrace a b c d,
      e = Ev.trainEv ∨ e = Ev.pruneLocal ∨ e = Ev.evalEv ∨ e = Ev.predictEv := by
  cases a <;> cases b <;> cases c <;> cases d <;> decide

theorem bodyTrace_filter_del (a b c d : Bool) : (bodyTrace a b c d).filter isDelEv = [] := by
  cases a <;> cases b <;> cases c <;> cases d <;> rfl

theorem data_append (a b : String) : (a ++ b).data = a.data ++ b.data := by
  cases a; cases b; rfl

theorem specCheckpointName_url_cond (outputUrl u nm rest : String)
    (hdrop : strDrop u outputUrl.length = "/" ++ nm ++ rest)
    (hspec : specCheckpointName nm = true) :
    checkpointUrlCond outputUrl u = true := by
  have hpre : strStartsWith nm (PREFIX_CHECKPOINT_DIR ++ "-") = true := by
    by_cases h : strStartsWith nm (PREFIX_CHECKPOINT_DIR ++ "-") = true
    · exact h
    · exfalso
      rw [specCheckpointName, checkpointStep] at hspec
      simp only [if_neg h] at hspec
      simp at hspec
  rw [strStartsWith] at hpre
  obtain ⟨t, ht⟩ := List.isPrefixOf_iff_prefix.mp hpre
  rw [checkpointUrlCond, hdrop, strStartsWith]
  rw [List.isPrefixOf_iff_prefix]
  refine ⟨t ++ rest.data, ?_⟩
  rw [data_append, data_append, data_append, data_append]
  rw [data_append] at ht
  rw [← ht]
  simp [List.append_assoc]

/-- C10: when the workspace is mirrored (no direct access) and the download
raises, the job aborts with the error before any training, evaluation or
prediction, no finalization step (remote pre-prune, upload, temp-dir
removal) executes, and the already-created ephemeral directory remains. -/
theorem c10_download_failure_aborts (cfg : RunCfg)
    (h1 : get_direct_access cfg.outputUrl = none) (h2 : cfg.downloadFails = true) :
    (runJob cfg).2 = true
    ∧ Ev.mkTemp ∈ (runJob cfg).1
    ∧ Ev.trainEv ∉ (runJob cfg).1
    ∧ Ev.evalEv ∉ (runJob cfg).1
    ∧ Ev.predictEv ∉ (runJob cfg).1
    ∧ (∀ u, Ev.delRemote u ∉ (runJob cfg).1)
    ∧ Ev.uploadEv ∉ (runJob cfg).1
    ∧ Ev.rmTemp ∉ (runJob cfg).1 := by
  have hr : runJob cfg = ([Ev.mkTemp], true) := by
    simp [runJob, h1, h2]
  rw [hr]
  simp

/-- C10 witness: a concrete remote job whose download fails. -/
theorem c10_download_failure_aborts_witness :
    (runJob (RunCfg.mk "s3://bucket/run1" [] true false true true true false)).2 = true
    ∧ Ev.trainEv ∉ (runJob (RunCfg.mk "s3://bucket/run1" [] true false true true true false)).1
    ∧ Ev.rmTemp ∉ (runJob (RunCfg.mk "s3://bucket/run1" [] true false true true true false)).1
    ∧ Ev.mkTemp ∈ (runJob (RunCfg.mk "s3://bucket/run1" [] true false true true true false)).1 :=
  ⟨(c10_download_failure_aborts _ (by decide) rfl).1,
   (c10_download_failure_aborts _ (by decide) rfl).2.2.1,
   (c10_download_failure_aborts _ (by decide) rfl).2.2.2.2.2.2.2,
   (c10_download_failure_aborts _ (by decide) rfl).2.1⟩

/-- C1 as stated is false on the code: in the finally-block the
`shutil.rmtree(temp_dir)` call is sequenced after the upload with no inner
try, so when the upload raises the error propagates but the ephemeral
directory is NOT removed.  Concretely: a mirrored job whose upload fails
ends with an error, a created temp dir, and no removal event. -/
theorem c1_upload_failure_counterexample :
    (runJob (RunCfg.mk "s3://bucket/run1" ["s3://bucket/run1/checkpoint-500"] false true true false false false)).2 = true
    ∧ Ev.mkTemp ∈ (runJob (RunCfg.mk "s3://bucket/run1" ["s3://bucket/run1/checkpoint-500"] false true true false false false)).1
    ∧ Ev.rmTemp ∉ (runJob (RunCfg.mk "s3://bucket/run1" ["s3://bucket/run1/checkpoint-500"] false true true false false false)).1 := by
  refine ⟨rfl, by decide, by decide⟩

/-- C1 amended: for every mirrored job whose upload raises during
finalization, the error propagates to the caller, the upload was attempted,
and the ephemeral temp directory is NOT removed (it remains on disk). -/
theorem c1_upload_failure_no_cleanup (cfg : RunCfg)
    (h1 : get_direct_access cfg.outputUrl = none)
    (h2 : cfg.downloadFails = false)
    (h3 : cfg.uploadFails = true) :
    (runJob cfg).2 = true
    ∧ Ev.mkTemp ∈ (runJob cfg).1
    ∧ Ev.uploadEv ∈ (runJob cfg).1
    ∧ Ev.rmTemp ∉ (runJob cfg).1 := by
  have hr : runJob cfg
      = (([Ev.mkTemp, Ev.download]
            ++ bodyTrace cfg.doTrain cfg.deleteCkptAtEnd cfg.doEval cfg.doPredict)
          ++ ((cfg.remoteUrls.filter (fun u => checkpointUrlCond cfg.outputUrl u)).map Ev.delRemote
            ++ [Ev.uploadEv]), true) := by
    simp [runJob, h1, h2, finalizeTrace, h3, List.append_assoc]
  rw [hr]
  refine ⟨rfl, by simp, by simp, ?_⟩
  intro hmem
  rcases List.mem_append.mp hmem with hmem | hmem
  · rcases List.mem_append.mp hmem with hmem | hmem
    · simp at hmem
    · rcases bodyTrace_mem _ _ _ _ _ hmem with h | h | h | h <;> simp at h
  · rcases List.mem_append.mp hmem with hmem | hmem
    · obtain ⟨u, _, hu⟩ := List.mem_map.mp hmem
      simp at hu
    · simp at hmem

/-- C1 amended witness: the counterexample configuration, via the amended
theorem. -/
theorem c1_upload_failure_no_cleanup_witness :
    (runJob (RunCfg.mk "s3://bucket/run2" [] false true true true false false)).2 = true
    ∧ Ev.mkTemp ∈ (runJob (RunCfg.mk "s3://bucket/run2" [] false true true true false false)).1
    ∧ Ev.uploadEv ∈ (runJob (RunCfg.mk "s3://bucket/run2" [] false true true true false false)).1
    ∧ Ev.rmTemp ∉ (runJob (RunCfg.mk "s3://bucket/run2" [] false true true true false false)).1 :=
  c1_upload_failure_no_cleanup (RunCfg.mk "s3://bucket/run2" [] false true true true false false)
    (by decide) rfl rfl

/-- C3: for every mirrored job that reaches finalization, the finally-block
deletes every listed remote entry under the output location whose name
matches the checkpoint pattern (prefix plus step number) strictly before the
upload, and the remote deletions performed are identical whether or not
`delete_checkpoints_at_end` was requested. -/
theorem c3_remote_preprune (cfg : RunCfg)
    (h1 : get_direct_access cfg.outputUrl = none)
    (h2 : cfg.downloadFails = false) :
    ∃ pre post, (runJob cfg).1 = pre ++ Ev.uploadEv :: post
      ∧ Ev.uploadEv ∉ pre
      ∧ (∀ u ∈ cfg.remoteUrls, ∀ nm rest : String,
          strDrop u cfg.outputUrl.length = "/" ++ nm ++ rest →
          specCheckpointName nm = true → Ev.delRemote u ∈ pre)
      ∧ (runJob { cfg with deleteCkptAtEnd := true }).1.filter isDelEv
          = (runJob { cfg with deleteCkptAtEnd := false }).1.filter isDelEv := by
  refine ⟨([Ev.mkTemp, Ev.download]
      ++ bodyTrace cfg.doTrain cfg.deleteCkptAtEnd cfg.doEval cfg.doPredict)
      ++ (cfg.remoteUrls.filter (fun u => checkpointUrlCond cfg.outputUrl u)).map Ev.delRemote,
    if cfg.uploadFails then [] else [Ev.rmTemp], ?_, ?_, ?_, ?_⟩
  · cases hu : cfg.uploadFails <;>
      simp [runJob, h1, h2, finalizeTrace, hu, List.append_assoc]
  · intro hmem
    rcases List.mem_append.mp hmem with hmem | hmem
    · rcases List.mem_append.mp hmem with hmem | hmem
      · simp at hmem
      · rcases bodyTrace_mem _ _ _ _ _ hmem with h | h | h | h <;> simp at h
    · obtain ⟨u, _, hu⟩ := List.mem_map.mp hmem
      simp at hu
  · intro u hu nm rest hdropEq hspec
    refine List.mem_append.mpr (Or.inr ?_)
    exact List.mem_map.mpr
      ⟨u, List.mem_filter.mpr ⟨hu, specCheckpointName_url_cond _ _ _ _ hdropEq hspec⟩, rfl⟩
  · have hfl : ∀ b : Bool, (runJob { cfg with deleteCkptAtEnd := b }).1.filter isDelEv
        = (cfg.remoteUrls.filter (fun u => checkpointUrlCond cfg.outputUrl u)).map Ev.delRemote := by
      intro b
      cases hu : cfg.uploadFails <;>
        simp [runJob, h1, h2, finalizeTrace, hu, List.filter_append,
          bodyTrace_filter_del, isDelEv, List.filter_map, Function.comp]
    rw [hfl true, hfl false]

/-- C3 witness: a concrete mirrored job with a stale remote checkpoint
object and a non-checkpoint object under the output location. -/
theorem c3_remote_preprune_witness :
    ∃ pre post,
      (runJob (RunCfg.mk "s3://bucket/run1"
          ["s3://bucket/run1/checkpoint-500", "s3://bucket/run1/model.bin"]
          false false true false false false)).1 = pre ++ Ev.uploadEv :: post
      ∧ Ev.uploadEv ∉ pre
      ∧ (∀ u ∈ ["s3://bucket/run1/checkpoint-500", "s3://bucket/run1/model.bin"],
          ∀ nm rest : String,
          strDrop u ("s3://bucket/run1" : String).length = "/" ++ nm ++ rest →
          specCheckpointName nm = true → Ev.delRemote u ∈ pre)
      ∧ (runJob { RunCfg.mk "s3://bucket/run1"
            ["s3://bucket/run1/checkpoint-500", "s3://bucket/run1/model.bin"]
            false false true false false false with deleteCkptAtEnd := true }).1.filter isDelEv
          = (runJob { RunCfg.mk "s3://bucket/run1"
              ["s3://bucket/run1/checkpoint-500", "s3://bucket/run1/model.bin"]
              false false true false false false with deleteCkptAtEnd := false }).1.filter isDelEv :=
  c3_remote_preprune
    (RunCfg.mk "s3://bucket/run1"
      ["s3://bucket/run1/checkpoint-500", "s3://bucket/run1/model.bin"]
      false false true false false false)
    (by decide) rfl

/-- Models `urllib.parse.urlparse(url).path` as used at src line 446,
following CPython `urlsplit`: scheme removal, then a `//netloc` segment cut
at the first of `/`, `?`, `#`, then fragment (`#`) and query (`?`) removal.
Parameter splitting on `;` is not modelled; the resolver never builds such
urls. -/
def urlPath (s : String) : String :=
  let afterScheme :=
    if urlScheme s = "" then s.data
    else s.data.drop (((s.data.findIdx? (fun c => c = ':')).getD 0) + 1)
  let afterNetloc :=
    if afterScheme.take 2 = ['/', '/'] then
      let r := afterScheme.drop 2
      r.drop (r.findIdx (fun c => c = '/' || c = '?' || c = '#'))
    else afterScheme
  ⟨(afterNetloc.takeWhile (fun c => c != '#')).takeWhile (fun c => c != '?')⟩

/-- Result of the staging block of src lines 440-452. -/
structure Acquired where
  tempDir : Option String
  outputDir : String
  loggingDir : String
  downloaded : Bool
deriving DecidableEq, Repr

/-- Models src lines 440-452: resolve the configured output dir, test direct
access; without it create the ephemeral dir (`mkdtemp`, whose fresh name is
the `fresh_temp` parameter), download the remote folder into it, and set the
working output dir to `os.path.join(temp_dir, parsed.path[1:])`; in both
cases a logging dir that starts with the configured output dir string is
rebased onto the new output dir by plain string concatenation
(src lines 448-451), before `training_args.output_dir` is reassigned. -/
def acquireWorkspace (config_url : Option String)
    (orig_output_dir orig_logging_dir fresh_temp : String) : Acquired :=
  let output_url := make_absolute_one config_url orig_output_dir
  match get_direct_access output_url with
  | some p =>
    { tempDir := none, outputDir := p, downloaded := false,
      loggingDir :=
        if strStartsWith orig_logging_dir orig_output_dir then
          p ++ strDrop orig_logging_dir orig_output_dir.length
        else orig_logging_dir }
  | none =>
    let od := posixJoin fresh_temp (strDrop (urlPath output_url) 1)
    { tempDir := some fresh_temp, outputDir := od, downloaded := true,
      loggingDir :=
        if strStartsWith orig_logging_dir orig_output_dir then
          od ++ strDrop orig_logging_dir orig_output_dir.length
        else orig_logging_dir }

/-- C8: for an output location without direct local access, acquisition
creates the fresh ephemeral directory, downloads the remote contents into
it, and yields a workspace path equal to the ephemeral directory joined
with the path component of the output location (its leading slash removed,
the segment preserved as a subpath); a logging dir declared under the
configured output dir is rewritten under the workspace path with its
relative suffix preserved. -/
theorem c8_mirrored_acquisition (config_url : Option String)
    (orig_output_dir orig_logging_dir fresh_temp : String)
    (hremote : get_direct_access (make_absolute_one config_url orig_output_dir) = none)
    (hpath : strStartsWith (urlPath (make_absolute_one config_url orig_output_dir)) "/" = true)
    (hpath2 : strStartsWith (strDrop (urlPath (make_absolute_one config_url orig_output_dir)) 1) "/" = false)
    (htemp1 : fresh_temp ≠ "")
    (htemp2 : strEndsWith fresh_temp "/" = false) :
    (acquireWorkspace config_url orig_output_dir orig_logging_dir fresh_temp).tempDir = some fresh_temp
    ∧ (acquireWorkspace config_url orig_output_dir orig_logging_dir fresh_temp).downloaded = true
    ∧ (∃ pc : String, urlPath (make_absolute_one config_url orig_output_dir) = "/" ++ pc
        ∧ strStartsWith pc "/" = false
        ∧ (acquireWorkspace config_url orig_output_dir orig_logging_dir fresh_temp).outputDir
            = fresh_temp ++ "/" ++ pc)
    ∧ (strStartsWith orig_logging_dir orig_output_dir = true →
        (acquireWorkspace config_url orig_output_dir orig_logging_dir fresh_temp).loggingDir
          = (acquireWorkspace config_url orig_output_dir orig_logging_dir fresh_temp).outputDir
              ++ strDrop orig_logging_dir orig_output_dir.length) := by
  have hjoin : posixJoin fresh_temp (strDrop (urlPath (make_absolute_one config_url orig_output_dir)) 1)
      = fresh_temp ++ "/" ++ strDrop (urlPath (make_absolute_one config_url orig_output_dir)) 1 := by
    rw [posixJoin, if_neg (by simp [hpath2]), if_neg ?_]
    rintro (h | h)
    · exact htemp1 h
    · rw [htemp2] at h; exact Bool.false_ne_true h
  have hacq : acquireWorkspace config_url orig_output_dir orig_logging_dir fresh_temp
      = { tempDir := some fresh_temp,
          outputDir := fresh_temp ++ "/" ++ strDrop (urlPath (make_absolute_one config_url orig_output_dir)) 1,
          downloaded := true,
          loggingDir :=
            if strStartsWith orig_logging_dir orig_output_dir then
              (fresh_temp ++ "/" ++ strDrop (urlPath (make_absolute_one config_url orig_output_dir)) 1)
                ++ strDrop orig_logging_dir orig_output_dir.length
            else orig_logging_dir } := by
    rw [acquireWorkspace]
    simp only [hremote, hjoin]
  have hsplit : urlPath (make_absolute_one config_url orig_output_dir)
      = "/" ++ strDrop (urlPath (make_absolute_one config_url orig_output_dir)) 1 := by
    rw [strStartsWith] at hpath
    obtain ⟨t, ht⟩ := List.isPrefixOf_iff_prefix.mp hpath
    have hdata : (urlPath (make_absolute_one config_url orig_output_dir)).data = '/' :: t := by
      rw [← ht]; rfl
    have hdrop : strDrop (urlPath (make_absolute_one config_url orig_output_dir)) 1 = ⟨t⟩ := by
      rw [strDrop, hdata]; rfl
    rw [hdrop]
    cases hufull : urlPath (make_absolute_one config_url orig_output_dir) with
    | mk d =>
      rw [hufull] at hdata
      simp only at hdata
      rw [hdata]
      rfl
  rw [hacq]
  refine ⟨rfl, rfl, ⟨strDrop (urlPath (make_absolute_one config_url orig_output_dir)) 1,
    hsplit, hpath2, rfl⟩, ?_⟩
  intro hlog
  simp only [hlog, if_pos]

/-- C8 witness: the spec section 8 scenario: `s3://bucket/run1` mirrored
into a fresh temp dir `/tmp/tmpabc`, logging dir declared under the output
dir. -/
theorem c8_mirrored_acquisition_witness :
    (acquireWorkspace none "s3://bucket/run1" "s3://bucket/run1/runs/logs" "/tmp/tmpabc").tempDir
        = some "/tmp/tmpabc"
    ∧ (acquireWorkspace none "s3://bucket/run1" "s3://bucket/run1/runs/logs" "/tmp/tmpabc").downloaded = true
    ∧ (∃ pc : String, urlPath (make_absolute_one none "s3://bucket/run1") = "/" ++ pc
        ∧ strStartsWith pc "/" = false
        ∧ (acquireWorkspace none "s3://bucket/run1" "s3://bucket/run1/runs/logs" "/tmp/tmpabc").outputDir
            = "/tmp/tmpabc" ++ "/" ++ pc)
    ∧ (strStartsWith "s3://bucket/run1/runs/logs" "s3://bucket/run1" = true →
        (acquireWorkspace none "s3://bucket/run1" "s3://bucket/run1/runs/logs" "/tmp/tmpabc").loggingDir
          = (acquireWorkspace none "s3://bucket/run1" "s3://bucket/run1/runs/logs" "/tmp/tmpabc").outputDir
              ++ strDrop "s3://bucket/run1/runs/logs" ("s3://bucket/run1" : String).length) :=
  c8_mirrored_acquisition none "s3://bucket/run1" "s3://bucket/run1/runs/logs" "/tmp/tmpabc"
    (by decide) (by decide) (by decide) (by decide) (by decide)
